import Mathlib

/-!
Verification of the kxctl execution core: the target filter and pattern
matcher (`pkg/filter`), the write-operation guard, the output line filter,
and the bounded concurrent dispatcher (`pkg/kubernetes/client.go`).

Strings are modelled through their character lists; the Go standard-library
helpers `strings.HasPrefix`, `strings.HasSuffix`, `strings.Contains` and
`strings.Split` are reimplemented below on that representation.  Go's
`regexp` package is an external library, so regular-expression compilation
is abstracted as a parameter of type `RegexCompile`: `compile interior`
is `none` when the interior is an invalid regular expression and
`some m` when it compiles to the matcher `m`.
-/

/-- Abstraction of Go's `regexp.Compile` followed by `MatchString`:
`none` models a compile error, `some m` a compiled regex whose
`MatchString` is `m`. -/
def RegexCompile : Type := String → Option (String → Bool)

/-- Go `strings.HasPrefix s pre`. -/
def strStartsWith (s pre : String) : Bool :=
  pre.data.isPrefixOf s.data

/-- Go `strings.HasSuffix s suf`. -/
def strEndsWith (s suf : String) : Bool :=
  suf.data.isSuffixOf s.data

/-- Substring test on character lists: `hasSubstr l sub` is true iff
`sub` occurs contiguously inside `l` (the model of Go `strings.Contains`). -/
def hasSubstr (sub : List Char) : List Char → Bool
  | [] => sub.isEmpty
  | c :: t => sub.isPrefixOf (c :: t) || hasSubstr sub t

/-- Go `strings.Contains s sub`. -/
def strContains (s sub : String) : Bool :=
  hasSubstr sub.data s.data

/-- Go `strings.Split s sep` for a one-character separator `sep`,
on the character-list representation. -/
def splitOnChar (sep : Char) : List Char → List (List Char)
  | [] => [[]]
  | c :: t =>
    if c = sep then [] :: splitOnChar sep t
    else
      match splitOnChar sep t with
      | [] => [[c]]
      | g :: gs => (c :: g) :: gs

/-- The Go slice `pattern[1 : len(pattern)-1]`: drop the first and last
character (only evaluated when the length is at least 2). -/
def stripEnds (p : String) : String :=
  ⟨p.data.tail.dropLast⟩

/-! ## Pattern Matcher (`pkg/filter`, `matchPattern`) -/

/-- `matchPattern` from `pkg/filter`.  Returns `Option Bool`: `none`
models the Go runtime panic.  The source checks only
`strings.HasPrefix(pattern, "/") && strings.HasSuffix(pattern, "/")`
before slicing `pattern[1 : len(pattern)-1]`; when the pattern is the
single character `"/"` that slice has bounds `[1:0]` and panics, which
is modelled by `none`. -/
def matchPattern (re : RegexCompile) (s pattern : String) : Option Bool :=
  if strStartsWith pattern "/" ∧ strEndsWith pattern "/" then
    if pattern.length < 2 then
      none
    else
      match re (stripEnds pattern) with
      | some m => some (m s)
      | none => some false
  else
    some (strContains s pattern)

/-! ## Target Filter (`pkg/filter`, `FilterContexts` / `matchesFilters`) -/

/-- The include loop of `matchesFilters`: scan the include patterns and
stop at the first match (`matched = true; break` in the source).
`none` propagates a `matchPattern` panic. -/
def anyMatches (re : RegexCompile) (ctx : String) : List String → Option Bool
  | [] => some false
  | p :: ps =>
    match matchPattern re ctx p with
    | none => none
    | some true => some true
    | some false => anyMatches re ctx ps

/-- The exclude loop of `matchesFilters`: `some true` iff no exclude
pattern matches (the loop returns `false` at the first match).
`none` propagates a `matchPattern` panic. -/
def noneMatches (re : RegexCompile) (ctx : String) : List String → Option Bool
  | [] => some true
  | p :: ps =>
    match matchPattern re ctx p with
    | none => none
    | some true => some false
    | some false => noneMatches re ctx ps

/-- `matchesFilters` from `pkg/filter`: when include patterns are given
the context must match at least one (otherwise the function returns
`false` without looking at the exclude patterns), and then it must match
none of the exclude patterns. -/
def matchesFilters (re : RegexCompile) (ctx : String)
    (incl excl : List String) : Option Bool :=
  match incl with
  | [] => noneMatches re ctx excl
  | _ :: _ =>
    match anyMatches re ctx incl with
    | none => none
    | some false => some false
    | some true => noneMatches re ctx excl

/-- The loop of `FilterContexts`: append every context that passes
`matchesFilters`, in order. -/
def filterLoop (re : RegexCompile) (incl excl : List String) :
    List String → Option (List String)
  | [] => some []
  | c :: cs =>
    match matchesFilters re c incl excl with
    | none => none
    | some true => (filterLoop re incl excl cs).map (c :: ·)
    | some false => filterLoop re incl excl cs

/-- `FilterContexts` from `pkg/filter`: identity fast path when both
pattern lists are empty, otherwise the filtering loop. -/
def FilterContexts (re : RegexCompile) (contexts incl excl : List String) :
    Option (List String) :=
  if incl.isEmpty && excl.isEmpty then some contexts
  else filterLoop re incl excl contexts

/-! ## Write-Operation Guard (`client.go`, `isWriteOperation`) -/

/-- The fixed table of mutating kubectl verbs (`writeVerbs` in the source). -/
def writeVerbs : List String :=
  ["apply", "create", "delete", "edit", "patch", "replace", "scale", "set",
   "label", "annotate", "taint", "drain", "cordon", "uncordon", "rollout",
   "autoscale"]

/-- `isWriteOperation` from `client.go`: an empty argument list is not a
write operation; otherwise look up the first argument in the verb table
(a missing key in the Go map yields the zero value `false`). -/
def isWriteOperation (args : List String) : Bool :=
  match args with
  | [] => false
  | v :: _ => writeVerbs.contains v

/-! ## Output Line Filter (`client.go`, `matchesGrepPattern`) -/

/-- `matchesGrepPattern` from `client.go`: regex mode when the pattern is
`/…/`-delimited with length above 2 (an invalid regex yields `false`),
otherwise pipe-alternation mode when the pattern contains `|`
(true iff the line contains some `|`-separated piece as a substring),
otherwise plain substring mode. -/
def matchesGrepPattern (re : RegexCompile) (line pattern : String) : Bool :=
  if strStartsWith pattern "/" ∧ strEndsWith pattern "/" ∧ pattern.length > 2 then
    match re (stripEnds pattern) with
    | some m => m line
    | none => false
  else if strContains pattern "|" then
    (splitOnChar '|' pattern.data).any fun sub => hasSubstr sub line.data
  else
    strContains line pattern

/-! ## Dispatcher, sequential denotation (`client.go`, `ExecuteCommand`) -/

/-- What the external `kubectl` subprocess produced for one context:
its combined output, the error from `cmd.CombinedOutput()` if any, and
whether `cmd.ProcessState` reported the process as killed rather than
exited (the condition of the timeout check at the error footer). -/
structure TaskOutcome where
  output : String
  err : Option String
  notExited : Bool

/-- The veto message built at the top of `ExecuteCommand`. -/
def vetoMessage (args : List String) : String :=
  "write operation detected: '" ++ String.intercalate " " args ++
    "'. Use --force flag to confirm"

/-- The output block one task prints under the lock (lines 252–276 of
`client.go`): the context header, every non-empty output line that passes
the grep filter (when a pattern is set), the `Timeout after`/`Error:`
footer when the subprocess failed, and the trailing separator line. -/
def runTask (re : RegexCompile) (grepPattern : String) (timeout : Nat)
    (name : String) (oc : TaskOutcome) : List String :=
  let lines := (splitOnChar '\n' oc.output.data).map fun l => String.mk l
  let body := (lines.filter fun l =>
      l ≠ "" ∧ (grepPattern = "" ∨ matchesGrepPattern re l grepPattern)).map
      ("  " ++ ·)
  let footer : List String :=
    match oc.err with
    | none => []
    | some e =>
      if timeout > 0 ∧ oc.notExited then ["  Timeout after " ++ toString timeout]
      else ["  Error: " ++ e]
  (("Context: " ++ name) :: body) ++ footer ++ [""]

/-- Sequential denotation of `ExecuteCommand` (`client.go` lines 177–293):
the batch result together with the list of dispatched contexts, each
paired with its printed block.  The write-guard veto returns before the
status board is created or any goroutine is launched, hence the empty
list; on every other input the dispatch covers all contexts and the
result is `ok` no matter what each subprocess did.  The interleaved
concurrent execution itself is modelled by the `Step` relation below. -/
def ExecuteCommand (re : RegexCompile) (outcomes : String → TaskOutcome)
    (kubectlArgs contexts : List String) (force : Bool) (timeout : Nat)
    (grepPattern : String) (maxParallel : Int) :
    Except String Unit × List (String × List String) :=
  if isWriteOperation kubectlArgs && !force then
    (Except.error (vetoMessage kubectlArgs), [])
  else
    let _ := maxParallel
    (Except.ok (),
      contexts.map fun c => (c, runTask re grepPattern timeout c (outcomes c)))

/-! ## Dispatcher, concurrent small-step model (`client.go` lines 200–291)

One task per context.  Each goroutine's shared-state actions, in program
order: acquire a semaphore slot (blocking while `concurrencyLimit` slots
are taken), mark its status `running` under the lock, run the subprocess,
mark its status `completed` with `Done = true` under the lock, release the
slot (first deferred function), then `wg.Done()` (second deferred
function).  Status updates are single atomic steps because the source
performs them while holding `outputMutex`.  The status board is keyed by
context name with one entry per target (the spec's StatusBoard invariant);
the model stores each task's entry alongside its program counter.  The
`Started` timestamp is not modelled (real time is outside the model). -/

/-- Program counter of one task goroutine. -/
inductive PC where
  | start
  | acquired
  | running
  | completed
  | finished
  deriving DecidableEq, Repr

/-- One task: its goroutine's program counter plus its `ContextStatus`
entry of the status board (`Name`, `Status`, `Done`). -/
structure TaskState where
  pc : PC
  status : String
  done : Bool
  name : String
  deriving DecidableEq, Repr

/-- Global dispatcher state: all tasks plus the number of semaphore slots
currently taken (`len(authSemaphore)` in the source). -/
structure DState where
  tasks : List TaskState
  semUsed : Nat
  deriving DecidableEq, Repr

/-- `concurrencyLimit` as computed at lines 207–210: the default 3,
overridden by `maxParallel` when that is positive. -/
def concurrencyLimit (maxParallel : Int) : Int :=
  if maxParallel > 0 then maxParallel else 3

/-- The capacity of the `authSemaphore` channel, as a natural number. -/
def gateCapacity (maxParallel : Int) : Nat :=
  (concurrencyLimit maxParallel).toNat

/-- Initial dispatcher state: every context preset to `queued`,
`Done = false`, no semaphore slot taken. -/
def initState (contexts : List String) : DState :=
  { tasks := contexts.map fun n => ⟨PC.start, "queued", false, n⟩
    semUsed := 0 }

/-- One scheduler step of the dispatcher, with semaphore capacity `K`:
any task may perform its next shared-state action, provided a semaphore
slot is free when it wants to acquire one. -/
inductive Step (K : Nat) : DState → DState → Prop
  | acquire (s : DState) (i : Nat) (t : TaskState)
      (ht : s.tasks[i]? = some t) (hpc : t.pc = PC.start)
      (hsem : s.semUsed < K) :
      Step K s ⟨s.tasks.set i { t with pc := PC.acquired }, s.semUsed + 1⟩
  | markRunning (s : DState) (i : Nat) (t : TaskState)
      (ht : s.tasks[i]? = some t) (hpc : t.pc = PC.acquired) :
      Step K s ⟨s.tasks.set i { t with pc := PC.running, status := "running" },
        s.semUsed⟩
  | markCompleted (s : DState) (i : Nat) (t : TaskState)
      (ht : s.tasks[i]? = some t) (hpc : t.pc = PC.running) :
      Step K s ⟨s.tasks.set i
        { t with pc := PC.completed, status := "completed", done := true },
        s.semUsed⟩
  | release (s : DState) (i : Nat) (t : TaskState)
      (ht : s.tasks[i]? = some t) (hpc : t.pc = PC.completed) :
      Step K s ⟨s.tasks.set i { t with pc := PC.finished }, s.semUsed - 1⟩

/-- States the dispatcher can reach from the initial state, for the
semaphore capacity derived from `maxParallel`. -/
def Reachable (maxParallel : Int) (contexts : List String) (s : DState) : Prop :=
  Relation.ReflTransGen (Step (gateCapacity maxParallel)) (initState contexts) s

/-- A task holds a semaphore slot from its acquire step until its
release step. -/
def holdsSlot (t : TaskState) : Bool :=
  match t.pc with
  | PC.acquired => true
  | PC.running => true
  | PC.completed => true
  | _ => false

/-- Correspondence between a task's program counter and its status-board
entry, maintained by every step. -/
def pcConsistent (t : TaskState) : Prop :=
  match t.pc with
  | PC.start => t.status = "queued" ∧ t.done = false
  | PC.acquired => t.status = "queued" ∧ t.done = false
  | PC.running => t.status = "running" ∧ t.done = false
  | PC.completed => t.status = "completed" ∧ t.done = true
  | PC.finished => t.status = "completed" ∧ t.done = true

/-- The dispatcher invariant: the board still carries exactly the batch's
targets, the semaphore count agrees with the number of slot-holding
tasks and never exceeds the capacity, and every entry agrees with its
task's progress. -/
def DispatchInv (K : Nat) (contexts : List String) (s : DState) : Prop :=
  s.tasks.map TaskState.name = contexts ∧
  s.semUsed = s.tasks.countP holdsSlot ∧
  s.semUsed ≤ K ∧
  ∀ t ∈ s.tasks, pcConsistent t

/-- Concrete stand-in for Go's regexp engine used in the concrete
examples below, agreeing with `regexp.Compile`/`MatchString` on the
patterns those examples exercise: the empty regular expression compiles
and matches every string, and every other pattern used concretely is
never fed to the engine. -/
def sampleRegexEngine : RegexCompile :=
  fun p => if p = "" then some (fun _ => true) else none

/-! ## Helper lemmas -/

/-- `hasSubstr` decides list containment (`strings.Contains`). -/
theorem hasSubstr_eq_true_iff (sub l : List Char) :
    hasSubstr sub l = true ↔ sub <:+: l := by
  induction l with
  | nil => simp [hasSubstr, List.isEmpty_iff, List.infix_nil]
  | cons c t ih =>
    simp [hasSubstr, Bool.or_eq_true, List.isPrefixOf_iff_prefix, ih,
      List.infix_cons_iff]

/-- The empty list is a substring of every list. -/
theorem hasSubstr_nil (l : List Char) : hasSubstr [] l = true := by
  cases l with
  | nil => rfl
  | cons c t => simp [hasSubstr, List.isPrefixOf]

/-- Two strings with the same character data are equal. -/
theorem strData_inj {a b : String} (h : a.data = b.data) : a = b := by
  cases a; cases b; exact congrArg String.mk h

/-- A slash-delimited pattern other than `"/"` has length at least 2. -/
theorem slashDelim_two_le (p : String) (h1 : strStartsWith p "/" = true)
    (h3 : p ≠ "/") : 2 ≤ p.length := by
  obtain ⟨d⟩ := p
  match d with
  | [] => simp [strStartsWith, List.isPrefixOf] at h1
  | [c] =>
    simp [strStartsWith, List.isPrefixOf] at h1
    subst h1
    exact absurd (strData_inj (show (['/'] : List Char) = "/".data from rfl)) h3
  | c :: e :: rest =>
    simp [String.length]

/-- A slash-delimited pattern other than `"/"` and `"//"` has length
above 2, hence is regex-delimited for the output line filter as well. -/
theorem slashDelim_two_lt (p : String) (h1 : strStartsWith p "/" = true)
    (h2 : strEndsWith p "/" = true) (h3 : p ≠ "/") (h4 : p ≠ "//") :
    2 < p.length := by
  obtain ⟨d⟩ := p
  match d with
  | [] => simp [strStartsWith, List.isPrefixOf] at h1
  | [c] =>
    simp [strStartsWith, List.isPrefixOf] at h1
    subst h1
    exact absurd (strData_inj (show (['/'] : List Char) = "/".data from rfl)) h3
  | [c, e] =>
    simp [strStartsWith, List.isPrefixOf] at h1
    simp [strEndsWith, List.isSuffixOf, List.isPrefixOf] at h2
    subst h1
    subst h2
    exact absurd (strData_inj (show (['/', '/'] : List Char) = "//".data from rfl)) h4
  | c :: e :: f :: rest =>
    simp [String.length]

/-- Away from the panicking pattern `"/"`, `matchPattern` always returns
a boolean. -/
theorem matchPattern_isSome (re : RegexCompile) (s p : String) (h : p ≠ "/") :
    ∃ b, matchPattern re s p = some b := by
  unfold matchPattern
  split
  · rename_i hslash
    rw [if_neg (by have := slashDelim_two_le p hslash.1 h; omega)]
    cases re (stripEnds p) <;> exact ⟨_, rfl⟩
  · exact ⟨_, rfl⟩

/-! ## Claim theorems -/

/-- C3: the Pattern Matcher is *not* total: on the pattern `"/"` the Go
source evaluates the slice `pattern[1:0]` and panics (modelled by
`none`), for every input value and every regex engine.  On every other
pattern it does return a boolean (`matchPattern_isSome`), and a
regex-wrapped pattern with an invalid interior yields `some false`. -/
theorem matchPattern_panics_on_slash (re : RegexCompile) (s : String) :
    matchPattern re s "/" = none := rfl

/-- C5: `isWriteOperation` is true exactly when the argument list is
non-empty and its first token is one of the sixteen mutating verbs; an
empty command is never mutating, later arguments are ignored, and the
comparison is case-sensitive (`"Delete"` is not mutating). -/
theorem isWriteOperation_spec :
    (∀ args : List String, isWriteOperation args = true ↔
      ∃ v rest, args = v :: rest ∧ v ∈ writeVerbs) ∧
    isWriteOperation [] = false ∧
    (∀ v r₁ r₂, isWriteOperation (v :: r₁) = isWriteOperation (v :: r₂)) ∧
    (∀ rest, isWriteOperation ("Delete" :: rest) = false) := by
  refine ⟨fun args => ?_, rfl, fun v r₁ r₂ => rfl, fun rest => rfl⟩
  cases args with
  | nil => simp [isWriteOperation]
  | cons v rest =>
    show writeVerbs.elem v = true ↔ _
    simp [List.elem_iff]

/-- C4: the Output Line Filter applies exactly one of its three modes, in
precedence order: regex mode for `/…/`-delimited patterns of length above
2 (true iff the compiled interior matches, false when the interior is an
invalid regex), else alternation mode when the pattern contains `|`
(true iff some `|`-separated piece is a substring of the line), else
plain substring mode; and the empty pattern matches every line. -/
theorem matchesGrepPattern_modes (re : RegexCompile) (line pattern : String) :
    (strStartsWith pattern "/" = true ∧ strEndsWith pattern "/" = true ∧
        pattern.length > 2 →
      (matchesGrepPattern re line pattern = true ↔
        ∃ m, re (stripEnds pattern) = some m ∧ m line = true)) ∧
    (¬(strStartsWith pattern "/" = true ∧ strEndsWith pattern "/" = true ∧
        pattern.length > 2) →
      strContains pattern "|" = true →
      (matchesGrepPattern re line pattern = true ↔
        ∃ sub ∈ splitOnChar '|' pattern.data, sub <:+: line.data)) ∧
    (¬(strStartsWith pattern "/" = true ∧ strEndsWith pattern "/" = true ∧
        pattern.length > 2) →
      strContains pattern "|" = false →
      (matchesGrepPattern re line pattern = true ↔
        pattern.data <:+: line.data)) ∧
    matchesGrepPattern re line "" = true := by
  refine ⟨fun h => ?_, fun h hp => ?_, fun h hp => ?_, ?_⟩
  · unfold matchesGrepPattern
    rw [if_pos h]
    cases hre : re (stripEnds pattern) with
    | none => simp
    | some m => simp
  · unfold matchesGrepPattern
    rw [if_neg h, if_pos hp, List.any_eq_true]
    simp [hasSubstr_eq_true_iff]
  · unfold matchesGrepPattern
    rw [if_neg h, if_neg (by simp [hp])]
    exact hasSubstr_eq_true_iff pattern.data line.data
  · unfold matchesGrepPattern
    rw [if_neg (by decide), if_neg (by decide)]
    exact hasSubstr_nil line.data

/-- C4 witness: the alternation-mode characterization at the spec's own
scenario line, and the empty pattern matching a concrete line. -/
theorem matchesGrepPattern_modes_witness :
    (matchesGrepPattern sampleRegexEngine "pod-abc-123 Running" "Pending|Running" = true ↔
      ∃ sub ∈ splitOnChar '|' ("Pending|Running" : String).data,
        sub <:+: ("pod-abc-123 Running" : String).data) ∧
    matchesGrepPattern sampleRegexEngine "anything" "" = true :=
  ⟨(matchesGrepPattern_modes sampleRegexEngine "pod-abc-123 Running"
      "Pending|Running").2.1 (by decide) (by decide),
   (matchesGrepPattern_modes sampleRegexEngine "anything" "").2.2.2⟩

/-- C10: in alternation mode, a pattern with an empty `|`-separated
branch matches every line, because every line contains the empty string
as a substring — such a grep pattern filters nothing. -/
theorem grep_empty_branch_matches_every_line (re : RegexCompile)
    (line pattern : String)
    (hreg : ¬(strStartsWith pattern "/" = true ∧ strEndsWith pattern "/" = true ∧
      pattern.length > 2))
    (hpipe : strContains pattern "|" = true)
    (hempty : [] ∈ splitOnChar '|' pattern.data) :
    matchesGrepPattern re line pattern = true := by
  unfold matchesGrepPattern
  rw [if_neg hreg, if_pos hpipe, List.any_eq_true]
  exact ⟨[], hempty, hasSubstr_nil _⟩

/-- C10 witness: the pattern `"a|"` (empty second branch) matches a line
sharing no character with it. -/
theorem grep_empty_branch_witness :
    matchesGrepPattern sampleRegexEngine "xyz" "a|" = true :=
  grep_empty_branch_matches_every_line sampleRegexEngine "xyz" "a|"
    (by decide) (by decide) (by decide)

/-- C6 counterexample: on the pipe-free pattern `"//"` the two matchers
disagree.  The Pattern Matcher has no length guard, so it strips the
slashes and matches the empty regular expression, which compiles and
matches everything (Go `regexp`); the Output Line Filter requires length
above 2, falls back to plain substring mode, and `"abc"` does not contain
`"//"`. -/
theorem matchPattern_grep_disagree_on_double_slash :
    matchPattern sampleRegexEngine "abc" "//" = some true ∧
    matchesGrepPattern sampleRegexEngine "abc" "//" = false ∧
    matchPattern sampleRegexEngine "abc" "//" ≠
      some (matchesGrepPattern sampleRegexEngine "abc" "//") := by decide

/-- C6 (amended): for every input string and every pattern that contains
no `|` and is neither `"/"` (where the Pattern Matcher panics) nor `"//"`
(which the Pattern Matcher reads as an empty regex but the Output Line
Filter reads as a plain substring), the Pattern Matcher and the Output
Line Filter return the same result, for every regex engine. -/
theorem matchPattern_agrees_with_grep (re : RegexCompile) (line pattern : String)
    (hp : strContains pattern "|" = false)
    (h1 : pattern ≠ "/") (h2 : pattern ≠ "//") :
    matchPattern re line pattern = some (matchesGrepPattern re line pattern) := by
  by_cases hs : strStartsWith pattern "/" = true ∧ strEndsWith pattern "/" = true
  · have hlen := slashDelim_two_lt pattern hs.1 hs.2 h1 h2
    unfold matchPattern matchesGrepPattern
    rw [if_pos hs, if_neg (by omega : ¬pattern.length < 2),
      if_pos ⟨hs.1, hs.2, hlen⟩]
    cases re (stripEnds pattern) <;> rfl
  · unfold matchPattern matchesGrepPattern
    rw [if_neg hs, if_neg (fun h => hs ⟨h.1, h.2.1⟩), if_neg (by simp [hp])]

/-- C6 witness: the two matchers agree on a concrete plain pattern. -/
theorem matchPattern_agrees_with_grep_witness :
    matchPattern sampleRegexEngine "pod-abc-123 Running" "Running" =
      some (matchesGrepPattern sampleRegexEngine "pod-abc-123 Running" "Running") :=
  matchPattern_agrees_with_grep sampleRegexEngine "pod-abc-123 Running" "Running"
    (by decide) (by decide) (by decide)

/-- C1: `ExecuteCommand` fails at batch level exactly when the command's
first token is mutating and `force` is unset; on that veto it returns the
veto message with nothing dispatched (no status entry, no subprocess);
in every other case — whatever each per-target subprocess did, including
failures and timeouts encoded in `outcomes` — it returns success and
dispatches every context. -/
theorem ExecuteCommand_batch_gate (re : RegexCompile)
    (outcomes : String → TaskOutcome) (args ctxs : List String) (force : Bool)
    (timeout : Nat) (grep : String) (mp : Int) :
    ((∃ e, (ExecuteCommand re outcomes args ctxs force timeout grep mp).1 =
        Except.error e) ↔
      isWriteOperation args = true ∧ force = false) ∧
    (isWriteOperation args = true → force = false →
      ExecuteCommand re outcomes args ctxs force timeout grep mp =
        (Except.error (vetoMessage args), [])) ∧
    (¬(isWriteOperation args = true ∧ force = false) →
      (ExecuteCommand re outcomes args ctxs force timeout grep mp).1 =
        Except.ok () ∧
      (ExecuteCommand re outcomes args ctxs force timeout grep mp).2.map
        Prod.fst = ctxs) := by
  by_cases h : isWriteOperation args = true ∧ force = false
  · have hb : (isWriteOperation args && !force) = true := by
      simp [Bool.and_eq_true, Bool.not_eq_true', h.1, h.2]
    unfold ExecuteCommand
    rw [if_pos hb]
    exact ⟨by simp [h.1, h.2], fun _ _ => rfl, fun hc => absurd h hc⟩
  · have hb : ¬(isWriteOperation args && !force) = true := by
      simp only [Bool.and_eq_true, Bool.not_eq_true']
      exact h
    unfold ExecuteCommand
    rw [if_neg hb]
    refine ⟨⟨fun ⟨e, he⟩ => absurd he (by simp), fun hc => absurd hc h⟩,
      fun h1 h2 => absurd ⟨h1, h2⟩ h, fun _ => ⟨rfl, ?_⟩⟩
    rw [List.map_map]
    induction ctxs with
    | nil => rfl
    | cons c cs ih => simpa using ih

/-- C1 witness: a mutating verb without `--force` is vetoed with nothing
dispatched, while a read verb proceeds to success even though every
subprocess reports a failure. -/
theorem ExecuteCommand_batch_gate_witness :
    ExecuteCommand sampleRegexEngine (fun _ => ⟨"", none, false⟩)
        ["delete", "pod"] ["a", "b"] false 0 "" 0 =
      (Except.error
        "write operation detected: 'delete pod'. Use --force flag to confirm",
        []) ∧
    (ExecuteCommand sampleRegexEngine (fun _ => ⟨"", some "exit status 1", false⟩)
        ["get", "pods"] ["a", "b"] false 0 "" 0).1 = Except.ok () :=
  ⟨(ExecuteCommand_batch_gate sampleRegexEngine (fun _ => ⟨"", none, false⟩)
      ["delete", "pod"] ["a", "b"] false 0 "" 0).2.1 (by decide) rfl,
   ((ExecuteCommand_batch_gate sampleRegexEngine
      (fun _ => ⟨"", some "exit status 1", false⟩)
      ["get", "pods"] ["a", "b"] false 0 "" 0).2.2
      (by intro hc; exact absurd hc.1 (by decide))).1⟩

/-- The include loop returns a boolean when no pattern is `"/"`, and it is
true exactly when some include pattern matches. -/
theorem anyMatches_isSome (re : RegexCompile) (ctx : String) (ps : List String)
    (h : "/" ∉ ps) :
    ∃ b, anyMatches re ctx ps = some b ∧
      (b = true ↔ ∃ p ∈ ps, matchPattern re ctx p = some true) := by
  induction ps with
  | nil => exact ⟨false, rfl, by simp⟩
  | cons p ps ih =>
    have hp : p ≠ "/" := fun e => h (e ▸ List.mem_cons_self p ps)
    obtain ⟨b0, hb0⟩ := matchPattern_isSome re ctx p hp
    obtain ⟨b, hb, hiff⟩ := ih fun e => h (List.mem_cons_of_mem _ e)
    cases b0 with
    | true =>
      exact ⟨true, by simp [anyMatches, hb0], by simp [hb0]⟩
    | false =>
      refine ⟨b, by simp [anyMatches, hb0, hb], ?_⟩
      rw [hiff]
      constructor
      · rintro ⟨q, hq, hmq⟩
        exact ⟨q, List.mem_cons_of_mem _ hq, hmq⟩
      · rintro ⟨q, hq, hmq⟩
        rcases List.mem_cons.mp hq with rfl | hq
        · rw [hb0] at hmq
          cases hmq
        · exact ⟨q, hq, hmq⟩

/-- The exclude loop returns a boolean when no pattern is `"/"`, and it is
true exactly when no exclude pattern matches. -/
theorem noneMatches_isSome (re : RegexCompile) (ctx : String) (ps : List String)
    (h : "/" ∉ ps) :
    ∃ b, noneMatches re ctx ps = some b ∧
      (b = true ↔ ∀ p ∈ ps, matchPattern re ctx p ≠ some true) := by
  induction ps with
  | nil => exact ⟨true, rfl, by simp⟩
  | cons p ps ih =>
    have hp : p ≠ "/" := fun e => h (e ▸ List.mem_cons_self p ps)
    obtain ⟨b0, hb0⟩ := matchPattern_isSome re ctx p hp
    obtain ⟨b, hb, hiff⟩ := ih fun e => h (List.mem_cons_of_mem _ e)
    cases b0 with
    | true =>
      refine ⟨false, by simp [noneMatches, hb0], ?_⟩
      simp only [List.forall_mem_cons]
      constructor
      · intro hfalse
        cases hfalse
      · rintro ⟨hpne, _⟩
        exact absurd hb0 hpne
    | false =>
      refine ⟨b, by simp [noneMatches, hb0, hb], ?_⟩
      rw [hiff, List.forall_mem_cons]
      constructor
      · intro hall
        exact ⟨by simp [hb0], hall⟩
      · exact fun hc => hc.2

/-- `matchesFilters` returns a boolean when no pattern is `"/"`, and it is
true exactly under the keep condition of the Target Filter: the include
set is empty or matched, and no exclude pattern matches. -/
theorem matchesFilters_isSome (re : RegexCompile) (ctx : String)
    (incl excl : List String) (hi : "/" ∉ incl) (he : "/" ∉ excl) :
    ∃ b, matchesFilters re ctx incl excl = some b ∧
      (b = true ↔
        ((incl = [] ∨ ∃ p ∈ incl, matchPattern re ctx p = some true) ∧
         ∀ p ∈ excl, matchPattern re ctx p ≠ some true)) := by
  obtain ⟨be, hbe, hiffe⟩ := noneMatches_isSome re ctx excl he
  cases incl with
  | nil =>
    refine ⟨be, hbe, ?_⟩
    rw [hiffe]
    exact ⟨fun h => ⟨Or.inl rfl, h⟩, fun h => h.2⟩
  | cons p ps =>
    obtain ⟨ba, hba, hiffa⟩ := anyMatches_isSome re ctx (p :: ps) hi
    cases ba with
    | false =>
      refine ⟨false, by simp [matchesFilters, hba], ?_⟩
      constructor
      · intro hfalse
        cases hfalse
      · rintro ⟨hinc | hinc, -⟩
        · cases hinc
        · exact absurd (hiffa.mpr hinc) (by simp)
    | true =>
      refine ⟨be, by simp [matchesFilters, hba, hbe], ?_⟩
      rw [hiffe]
      constructor
      · exact fun hall => ⟨Or.inr (hiffa.mp rfl), hall⟩
      · exact fun hc => hc.2

/-- The filtering loop of `FilterContexts`: when no pattern is `"/"` it
returns an order-preserving sublist holding exactly the contexts that
pass `matchesFilters`. -/
theorem filterLoop_spec (re : RegexCompile) (incl excl : List String)
    (hi : "/" ∉ incl) (he : "/" ∉ excl) (ts : List String) :
    ∃ res, filterLoop re incl excl ts = some res ∧
      res.Sublist ts ∧
      ∀ t, t ∈ res ↔ t ∈ ts ∧ matchesFilters re t incl excl = some true := by
  induction ts with
  | nil => exact ⟨[], rfl, List.Sublist.refl [], by simp⟩
  | cons c cs ih =>
    obtain ⟨res, hres, hsub, hmem⟩ := ih
    obtain ⟨b, hb, -⟩ := matchesFilters_isSome re c incl excl hi he
    cases b with
    | true =>
      refine ⟨c :: res, by simp [filterLoop, hb, hres], hsub.cons₂ c, fun t => ?_⟩
      rw [List.mem_cons, hmem t, List.mem_cons]
      constructor
      · rintro (rfl | ⟨ht, hmt⟩)
        · exact ⟨Or.inl rfl, hb⟩
        · exact ⟨Or.inr ht, hmt⟩
      · rintro ⟨rfl | ht, hmt⟩
        · exact Or.inl rfl
        · exact Or.inr ⟨ht, hmt⟩
    | false =>
      refine ⟨res, by simp [filterLoop, hb, hres], hsub.cons c, fun t => ?_⟩
      rw [hmem t, List.mem_cons]
      constructor
      · rintro ⟨ht, hmt⟩
        exact ⟨Or.inr ht, hmt⟩
      · rintro ⟨rfl | ht, hmt⟩
        · rw [hb] at hmt
          cases hmt
        · exact ⟨ht, hmt⟩

/-- C2 counterexample: with include pattern `"/"` the filter does not
return a result at all — `matchPattern` panics on `"/"` (modelled by
`none`), so the quantification of the claim over *every* pattern set
fails. -/
theorem FilterContexts_slash_panics :
    FilterContexts sampleRegexEngine ["a"] ["/"] [] = none := by decide

/-- C2 (amended): for every target list and all include/exclude pattern
sets containing no `"/"` pattern (on which the Pattern Matcher panics),
the filter returns a result that is an order-preserving sublist of the
targets, is the targets unchanged when both pattern sets are empty, and
keeps a target iff the include set is empty or some include pattern
matches it, and no exclude pattern matches it. -/
theorem FilterContexts_spec (re : RegexCompile) (ts incl excl : List String)
    (hi : "/" ∉ incl) (he : "/" ∉ excl) :
    ∃ res, FilterContexts re ts incl excl = some res ∧
      res.Sublist ts ∧
      (incl = [] → excl = [] → res = ts) ∧
      ∀ t, t ∈ res ↔ t ∈ ts ∧
        (incl = [] ∨ ∃ p ∈ incl, matchPattern re t p = some true) ∧
        (∀ p ∈ excl, matchPattern re t p ≠ some true) := by
  by_cases hid : incl = [] ∧ excl = []
  · refine ⟨ts, by simp [FilterContexts, hid.1, hid.2], List.Sublist.refl ts,
      fun _ _ => rfl, fun t => ?_⟩
    simp [hid.1, hid.2]
  · obtain ⟨res, hres, hsub, hmem⟩ := filterLoop_spec re incl excl hi he ts
    have hguard : ¬(incl.isEmpty && excl.isEmpty) = true := by
      rcases incl with _ | ⟨p, ps⟩ <;> rcases excl with _ | ⟨q, qs⟩ <;>
        simp_all
    refine ⟨res, by simp [FilterContexts, hguard, hres],
      hsub, fun h1 h2 => absurd ⟨h1, h2⟩ hid, fun t => ?_⟩
    rw [hmem t]
    obtain ⟨b, hb, hiff⟩ := matchesFilters_isSome re t incl excl hi he
    rw [hb]
    constructor
    · rintro ⟨ht, hbt⟩
      exact ⟨ht, hiff.mp (by injection hbt)⟩
    · rintro ⟨ht, hcond⟩
      exact ⟨ht, by rw [hiff.mpr hcond]⟩

/-- C2 witness: the spec's own scenario — targets
`["dev","staging","prod","prod-eu","prod-us"]`, include `["prod"]`,
exclude `["us"]`. -/
theorem FilterContexts_spec_witness :
    ∃ res, FilterContexts sampleRegexEngine
        ["dev", "staging", "prod", "prod-eu", "prod-us"] ["prod"] ["us"] =
        some res ∧
      res.Sublist ["dev", "staging", "prod", "prod-eu", "prod-us"] ∧
      ((["prod"] : List String) = [] → (["us"] : List String) = [] →
        res = ["dev", "staging", "prod", "prod-eu", "prod-us"]) ∧
      ∀ t, t ∈ res ↔ t ∈ ["dev", "staging", "prod", "prod-eu", "prod-us"] ∧
        ((["prod"] : List String) = [] ∨
          ∃ p ∈ (["prod"] : List String),
            matchPattern sampleRegexEngine t p = some true) ∧
        (∀ p ∈ (["us"] : List String),
          matchPattern sampleRegexEngine t p ≠ some true) :=
  FilterContexts_spec sampleRegexEngine
    ["dev", "staging", "prod", "prod-eu", "prod-us"] ["prod"] ["us"]
    (by decide) (by decide)

/-- Balance of a predicate count under a single-position update: the
update trades the old element's contribution for the new one's. -/
theorem countP_set_balance {α : Type} (p : α → Bool) (l : List α) (i : Nat)
    (a b : α) (h : l[i]? = some a) :
    (l.set i b).countP p + (if p a then 1 else 0) =
      l.countP p + (if p b then 1 else 0) := by
  induction l generalizing i with
  | nil => cases h
  | cons x xs ih =>
    cases i with
    | zero =>
      rw [List.getElem?_cons_zero] at h
      injection h with h
      subst h
      simp only [List.set_cons_zero, List.countP_cons]
      omega
    | succ n =>
      rw [List.getElem?_cons_succ] at h
      simp only [List.set_cons_succ, List.countP_cons]
      have := ih n h
      omega

/-- Writing back the element already at a position leaves the list
unchanged. -/
theorem set_getElem?_self {α : Type} (l : List α) (i : Nat) (a : α)
    (h : l[i]? = some a) : l.set i a = l := by
  induction l generalizing i with
  | nil => cases h
  | cons x xs ih =>
    cases i with
    | zero =>
      rw [List.getElem?_cons_zero] at h
      injection h with h
      simp [List.set_cons_zero, ← h]
    | succ n =>
      rw [List.getElem?_cons_succ] at h
      simp only [List.set_cons_succ]
      rw [ih n h]

/-- An element delivered by an index lookup is a member. -/
theorem mem_of_getElem?_eq {α : Type} {l : List α} {i : Nat} {a : α}
    (h : l[i]? = some a) : a ∈ l := by
  obtain ⟨hlt, hget⟩ := List.getElem?_eq_some.mp h
  exact hget ▸ List.getElem_mem hlt

/-- Updating one task with an equally named one preserves the board's
name list. -/
theorem map_name_set (l : List TaskState) (i : Nat) (t t' : TaskState)
    (ht : l[i]? = some t) (hname : t'.name = t.name) :
    (l.set i t').map TaskState.name = l.map TaskState.name := by
  rw [List.map_set, hname]
  exact set_getElem?_self _ i _ (by rw [List.getElem?_map, ht]; rfl)

/-- The initial dispatcher state satisfies the invariant. -/
theorem dispatchInv_init (K : Nat) (contexts : List String) :
    DispatchInv K contexts (initState contexts) := by
  refine ⟨?_, ?_, Nat.zero_le K, ?_⟩
  · show (contexts.map fun n =>
      (⟨PC.start, "queued", false, n⟩ : TaskState)).map TaskState.name = contexts
    rw [List.map_map]
    induction contexts with
    | nil => rfl
    | cons c cs ih => simpa using ih
  · rw [show (initState contexts).semUsed = 0 from rfl, Eq.comm,
      List.countP_eq_zero]
    intro t ht
    simp [initState] at ht
    obtain ⟨n, -, rfl⟩ := ht
    simp [holdsSlot]
  · intro t ht
    simp [initState] at ht
    obtain ⟨n, -, rfl⟩ := ht
    exact ⟨rfl, rfl⟩

/-- Every dispatcher step preserves the invariant. -/
theorem dispatchInv_step {K : Nat} {contexts : List String} {s s' : DState}
    (hinv : DispatchInv K contexts s) (hstep : Step K s s') :
    DispatchInv K contexts s' := by
  obtain ⟨hnames, hsem, hle, hcons⟩ := hinv
  cases hstep with
  | acquire i t ht hpc hsem2 =>
    have hb := countP_set_balance holdsSlot s.tasks i t
      { t with pc := PC.acquired } ht
    have hmap := map_name_set s.tasks i t { t with pc := PC.acquired } ht rfl
    rw [show holdsSlot t = false by simp [holdsSlot, hpc],
      show holdsSlot { t with pc := PC.acquired } = true from rfl] at hb
    simp at hb
    refine ⟨?_, ?_, ?_, ?_⟩
    · dsimp only
      rw [hmap]
      exact hnames
    · dsimp only
      omega
    · dsimp only
      omega
    · dsimp only
      intro u hu
      rcases List.mem_or_eq_of_mem_set hu with hu | rfl
      · exact hcons u hu
      · have hc := hcons t (mem_of_getElem?_eq ht)
        simp [pcConsistent, hpc] at hc
        exact hc
  | markRunning i t ht hpc =>
    have hb := countP_set_balance holdsSlot s.tasks i t
      { t with pc := PC.running, status := "running" } ht
    have hmap := map_name_set s.tasks i t
      { t with pc := PC.running, status := "running" } ht rfl
    rw [show holdsSlot t = true by simp [holdsSlot, hpc],
      show holdsSlot { t with pc := PC.running, status := "running" } = true
        from rfl] at hb
    simp at hb
    refine ⟨?_, ?_, ?_, ?_⟩
    · dsimp only
      rw [hmap]
      exact hnames
    · dsimp only
      omega
    · dsimp only
      omega
    · dsimp only
      intro u hu
      rcases List.mem_or_eq_of_mem_set hu with hu | rfl
      · exact hcons u hu
      · have hc := hcons t (mem_of_getElem?_eq ht)
        simp [pcConsistent, hpc] at hc
        exact ⟨rfl, hc.2⟩
  | markCompleted i t ht hpc =>
    have hb := countP_set_balance holdsSlot s.tasks i t
      { t with pc := PC.completed, status := "completed", done := true } ht
    have hmap := map_name_set s.tasks i t
      { t with pc := PC.completed, status := "completed", done := true } ht rfl
    rw [show holdsSlot t = true by simp [holdsSlot, hpc],
      show holdsSlot
          { t with pc := PC.completed, status := "completed", done := true } =
        true from rfl] at hb
    simp at hb
    refine ⟨?_, ?_, ?_, ?_⟩
    · dsimp only
      rw [hmap]
      exact hnames
    · dsimp only
      omega
    · dsimp only
      omega
    · dsimp only
      intro u hu
      rcases List.mem_or_eq_of_mem_set hu with hu | rfl
      · exact hcons u hu
      · exact ⟨rfl, rfl⟩
  | release i t ht hpc =>
    have hb := countP_set_balance holdsSlot s.tasks i t
      { t with pc := PC.finished } ht
    have hmap := map_name_set s.tasks i t { t with pc := PC.finished } ht rfl
    rw [show holdsSlot t = true by simp [holdsSlot, hpc],
      show holdsSlot { t with pc := PC.finished } = false from rfl] at hb
    simp at hb
    refine ⟨?_, ?_, ?_, ?_⟩
    · dsimp only
      rw [hmap]
      exact hnames
    · dsimp only
      omega
    · dsimp only
      omega
    · dsimp only
      intro u hu
      rcases List.mem_or_eq_of_mem_set hu with hu | rfl
      · exact hcons u hu
      · have hc := hcons t (mem_of_getElem?_eq ht)
        simp [pcConsistent, hpc] at hc
        exact hc

/-- Every reachable dispatcher state satisfies the invariant. -/
theorem dispatchInv_reachable (mp : Int) (contexts : List String) (s : DState)
    (h : Reachable mp contexts s) :
    DispatchInv (gateCapacity mp) contexts s := by
  induction h with
  | refl => exact dispatchInv_init _ _
  | tail hr hstep ih => exact dispatchInv_step ih hstep

/-- C7: the concurrency gate's capacity is the configured limit when that
limit is positive, and the baseline default 3 when it is absent (the Go
zero value) or non-positive. -/
theorem concurrencyLimit_spec (maxParallel : Int) :
    (0 < maxParallel → concurrencyLimit maxParallel = maxParallel) ∧
    (maxParallel ≤ 0 → concurrencyLimit maxParallel = 3) := by
  constructor
  · intro h
    simp [concurrencyLimit, h]
  · intro h
    rw [concurrencyLimit, if_neg (by omega)]

/-- C7 witness: capacity 5 for an explicit limit of 5, the default 3 for
the absent (zero) limit. -/
theorem concurrencyLimit_spec_witness :
    concurrencyLimit 5 = 5 ∧ concurrencyLimit 0 = 3 :=
  ⟨(concurrencyLimit_spec 5).1 (by decide), (concurrencyLimit_spec 0).2 (by decide)⟩

/-- C8: with effective gate capacity K and more targets than K, no
reachable dispatcher state has more than K tasks in `running` status: a
task only becomes `running` after acquiring one of the K slots and is
marked `completed` before its slot is released. -/
theorem dispatch_running_bound (mp : Int) (contexts : List String) (s : DState)
    (hnd : contexts.Nodup) (hM : gateCapacity mp < contexts.length)
    (hr : Reachable mp contexts s) :
    (s.tasks.filter fun t => t.status == "running").length ≤ gateCapacity mp := by
  obtain ⟨-, hsem, hle, hcons⟩ := dispatchInv_reachable mp contexts s hr
  rw [← List.countP_eq_length_filter]
  refine le_trans (le_trans (List.countP_mono_left ?_) hsem.symm.le) hle
  intro t htmem hrun
  have hc := hcons t htmem
  have hst : t.status = "running" := by simpa using hrun
  cases hx : t.pc with
  | start =>
    simp [pcConsistent, hx] at hc
    rw [hst] at hc
    exact absurd hc.1 (by decide)
  | acquired =>
    simp [pcConsistent, hx] at hc
    rw [hst] at hc
    exact absurd hc.1 (by decide)
  | running => simp [holdsSlot, hx]
  | completed => simp [holdsSlot, hx]
  | finished =>
    simp [pcConsistent, hx] at hc
    rw [hst] at hc
    exact absurd hc.1 (by decide)

/-- C8 witness: capacity 1, two targets, after the first task acquired
the slot and went `running`; the running count 1 stays within the bound. -/
theorem dispatch_running_bound_witness :
    ((⟨[⟨PC.running, "running", false, "a"⟩, ⟨PC.start, "queued", false, "b"⟩],
        1⟩ : DState).tasks.filter fun t => t.status == "running").length ≤
      gateCapacity 1 := by
  have h1 : Step (gateCapacity 1) (initState ["a", "b"])
      ⟨[⟨PC.acquired, "queued", false, "a"⟩,
        ⟨PC.start, "queued", false, "b"⟩], 1⟩ :=
    Step.acquire (initState ["a", "b"]) 0
      ⟨PC.start, "queued", false, "a"⟩ rfl rfl (by decide)
  have h2 : Step (gateCapacity 1)
      ⟨[⟨PC.acquired, "queued", false, "a"⟩,
        ⟨PC.start, "queued", false, "b"⟩], 1⟩
      ⟨[⟨PC.running, "running", false, "a"⟩,
        ⟨PC.start, "queued", false, "b"⟩], 1⟩ :=
    Step.markRunning _ 0 ⟨PC.acquired, "queued", false, "a"⟩ rfl rfl
  exact dispatch_running_bound 1 ["a", "b"] _ (by decide) (by decide)
    (Relation.ReflTransGen.tail
      (Relation.ReflTransGen.tail Relation.ReflTransGen.refl h1) h2)

/-- C9: in any reachable dispatcher state in which every task goroutine
has finished — the condition under which `wg.Wait()` returns and
`ExecuteCommand` can return — the status board still lists exactly the
batch's targets and every entry is `completed` with `Done` set; none
remains `queued` or `running`. -/
theorem dispatch_completion (mp : Int) (contexts : List String) (s : DState)
    (hnd : contexts.Nodup) (hr : Reachable mp contexts s)
    (hdone : ∀ t ∈ s.tasks, t.pc = PC.finished) :
    s.tasks.map TaskState.name = contexts ∧
    ∀ t ∈ s.tasks, t.status = "completed" ∧ t.done = true := by
  obtain ⟨hnames, -, -, hcons⟩ := dispatchInv_reachable mp contexts s hr
  refine ⟨hnames, fun t ht => ?_⟩
  have hc := hcons t ht
  simp [pcConsistent, hdone t ht] at hc
  exact hc

/-- C9 witness: a full run of one task (acquire, run, complete, release)
ends with its board entry `completed` and `Done` set. -/
theorem dispatch_completion_witness :
    (⟨[⟨PC.finished, "completed", true, "a"⟩], 0⟩ : DState).tasks.map
        TaskState.name = ["a"] ∧
    ∀ t ∈ (⟨[⟨PC.finished, "completed", true, "a"⟩], 0⟩ : DState).tasks,
      t.status = "completed" ∧ t.done = true := by
  have h1 : Step (gateCapacity 0) (initState ["a"])
      ⟨[⟨PC.acquired, "queued", false, "a"⟩], 1⟩ :=
    Step.acquire (initState ["a"]) 0 ⟨PC.start, "queued", false, "a"⟩
      rfl rfl (by decide)
  have h2 : Step (gateCapacity 0) ⟨[⟨PC.acquired, "queued", false, "a"⟩], 1⟩
      ⟨[⟨PC.running, "running", false, "a"⟩], 1⟩ :=
    Step.markRunning _ 0 ⟨PC.acquired, "queued", false, "a"⟩ rfl rfl
  have h3 : Step (gateCapacity 0) ⟨[⟨PC.running, "running", false, "a"⟩], 1⟩
      ⟨[⟨PC.completed, "completed", true, "a"⟩], 1⟩ :=
    Step.markCompleted _ 0 ⟨PC.running, "running", false, "a"⟩ rfl rfl
  have h4 : Step (gateCapacity 0) ⟨[⟨PC.completed, "completed", true, "a"⟩], 1⟩
      ⟨[⟨PC.finished, "completed", true, "a"⟩], 0⟩ :=
    Step.release _ 0 ⟨PC.completed, "completed", true, "a"⟩ rfl rfl
  exact dispatch_completion 0 ["a"] _ (by decide)
    (Relation.ReflTransGen.tail (Relation.ReflTransGen.tail
      (Relation.ReflTransGen.tail
        (Relation.ReflTransGen.tail Relation.ReflTransGen.refl h1) h2) h3) h4)
    (by decide)
